import Mathlib

/-!
Verification of the gaphas constraint-solver and canvas-update core.

The definitions below are a shallow embedding of the Python modules
gaphas/constraint.py and gaphas/canvas.py. Numeric variables are
modelled as rational numbers, and each constraint kind becomes a pure
state-transformer on the values of its participant variables.
-/

namespace Gaphas

/- ### EqualsConstraint (constraint.py lines 97-125)

State is the pair of participant values (a, b). The method
solve_for(var) assigns, to the variable passed in, the value of the
other participant. -/

inductive EqVar : Type
| a : EqVar
| b : EqVar
deriving DecidableEq, Repr

namespace EqualsConstraint

def solve_for (var : EqVar) (s : ℚ × ℚ) : ℚ × ℚ :=
  match var with
  | EqVar.a => (s.2, s.2)
  | EqVar.b => (s.1, s.1)

end EqualsConstraint

/- ### LessThanConstraint (constraint.py lines 128-164)

State holds the values of the smaller and bigger participants; delta
is the constraint parameter fixed at construction. -/

structure LtState where
  smaller : ℚ
  bigger : ℚ
deriving DecidableEq, Repr

inductive LtVar : Type
| smaller : LtVar
| bigger : LtVar
deriving DecidableEq, Repr

namespace LessThanConstraint

def solve_for (delta : ℚ) (var : LtVar) (s : LtState) : LtState :=
  if s.smaller > s.bigger - delta then
    match var with
    | LtVar.smaller => { s with bigger := s.smaller + delta }
    | LtVar.bigger => { s with smaller := s.bigger - delta }
  else s

end LessThanConstraint

/- ### BalanceConstraint (constraint.py lines 306-348)

State holds the two band endpoints and the balanced variable. The
balance ratio is computed once, from the construction-time state, and
solve_for(var) assigns b1 + w * balance to the variable passed in. -/

structure BalState where
  b1 : ℚ
  b2 : ℚ
  v : ℚ
deriving DecidableEq, Repr

inductive BalVar : Type
| b1 : BalVar
| b2 : BalVar
| v : BalVar
deriving DecidableEq, Repr

namespace BalanceConstraint

def balance (s : BalState) : ℚ :=
  let w := s.b2 - s.b1
  if w ≠ 0 then (s.v - s.b1) / w else 0

def solve_for (bal : ℚ) (var : BalVar) (s : BalState) : BalState :=
  let w := s.b2 - s.b1
  match var with
  | BalVar.b1 => { s with b1 := s.b1 + w * bal }
  | BalVar.b2 => { s with b2 := s.b1 + w * bal }
  | BalVar.v => { s with v := s.b1 + w * bal }

end BalanceConstraint

/- ### Constraint base class: the weakest-variable list
(constraint.py lines 31-85)

A solver variable is identified by an id and carries a strength tier.
Python compares variables by identity; distinct ids model distinct
objects. -/

structure Var where
  id : ℕ
  strength : ℕ
deriving DecidableEq, Repr

instance : Inhabited Var := ⟨⟨0, 0⟩⟩

namespace Constraint

/-- The value min(v.strength for v in variables), as evaluated by
Python over a nonempty argument list (constraint.py line 57). -/
def minStrength : List Var → ℕ
  | [] => 0
  | v :: vs => vs.foldl (fun m x => min m x.strength) v.strength

/-- constraint.py lines 52-58: keep the variables whose strength is
the minimum strength. -/
def create_weakest_list (vars : List Var) : List Var :=
  vars.filter (fun v => v.strength = minStrength vars)

/-- constraint.py lines 69-74: the weakest variable is the first
element of the weakest list. -/
def weakest (w : List Var) : Var :=
  w.headI

/-- constraint.py lines 77-85: if v is the front of the weakest list,
remove it and append it at the back. -/
def mark_dirty (w : List Var) (v : Var) : List Var :=
  if v = weakest w then (w.erase v) ++ [v] else w

end Constraint

/- ### EquationConstraint (constraint.py lines 167-302)

The secant / Newton iteration _solve_for, with the function f made a
parameter. The loop returns the current estimate x1 together with a
flag recording whether a non-convergence diagnostic was printed; the
fuel argument bounds the recursion and the theorems show the fuel
needed is fixed by the iteration limit. -/

def TOL : ℚ := 1 / 10000000

def ITERLIMIT : ℕ := 1000

namespace EquationConstraint

/-- The body of the while loop of _solve_for (constraint.py lines
275-301). Returns none only when the fuel runs out before the loop
breaks; a some result carries the returned x1 and whether a
diagnostic message was printed. -/
def newton_loop (f : ℚ → ℚ) : ℕ → ℚ → ℚ → ℚ → ℕ → ℕ → Option (ℚ × Bool)
  | 0, _, _, _, _, _ => none
  | fuel + 1, x0, x1, fx0, close_runs, n =>
    let fx1 := f x1
    if fx1 = 0 ∨ x1 = x0 then some (x1, false)
    else if |fx1 - fx0| < TOL ∧ close_runs = 0 then some (x1, false)
    else
      let close_flag := |fx1 - fx0| < TOL
      let close_runs1 := if close_flag then close_runs - 1 else close_runs
      if n > ITERLIMIT then some (x1, true)
      else
        let slope := (fx1 - fx0) / (x1 - x0)
        if slope = 0 then
          some (x1, decide (¬ close_flag))
        else
          let x2 := x0 - fx0 / slope
          newton_loop f fuel x1 x2 fx1 close_runs1 (n + 1)

/-- constraint.py lines 255-302: starting points of the iteration
(close_runs = 10, n = 0) from the current value of the solved
argument. -/
def solve_for_arg (f : ℚ → ℚ) (argval : ℚ) (fuel : ℕ) : Option (ℚ × Bool) :=
  let x0 := if argval ≠ 0 then argval else 1
  let x1 := if x0 = 0 then 1 else x0 * (11 / 10)
  newton_loop f fuel x0 x1 (f x0) 10 0

end EquationConstraint

/- ### Canvas._normalize (canvas.py lines 552-601)

An item is modelled by its local cairo matrix and the local positions
of its handles. Matrix2D.translate is the cairo translate operation,
which post-composes the translation in item coordinates. -/

structure Matrix2D where
  xx : ℚ
  yx : ℚ
  xy : ℚ
  yy : ℚ
  x0 : ℚ
  y0 : ℚ
deriving DecidableEq, Repr

def Matrix2D.translate (m : Matrix2D) (tx ty : ℚ) : Matrix2D :=
  { m with
    x0 := m.xx * tx + m.xy * ty + m.x0
    y0 := m.yx * tx + m.yy * ty + m.y0 }

structure Item where
  matrix : Matrix2D
  handles : List (ℚ × ℚ)
deriving DecidableEq, Repr

namespace Canvas

/-- The body of the loop of Canvas._normalize for a single item
(canvas.py lines 585-599): read the position (x, y) of the first
handle; when x is nonzero translate the matrix by (x, 0) and shift
every handle by -x; likewise for y. The Bool records whether the item
was added to the dirty-matrix set. -/
def normalize_item (it : Item) : Item × Bool :=
  match it.handles with
  | [] => (it, false)
  | (x, y) :: _ =>
    let it1 :=
      if x ≠ 0 then
        { matrix := it.matrix.translate x 0
          handles := it.handles.map (fun h => (h.1 - x, h.2)) }
      else it
    let it2 :=
      if y ≠ 0 then
        { matrix := it1.matrix.translate 0 y
          handles := it1.handles.map (fun h => (h.1, h.2 - y)) }
      else it1
    (it2, decide (x ≠ 0) || decide (y ≠ 0))

/-- canvas.py lines 552-601: normalize every item in the list,
returning updated items paired with the dirty-matrix flag. -/
def normalize_items (items : List Item) : List (Item × Bool) :=
  items.map normalize_item

end Canvas

/- ### Canvas._pre_update_items and _post_update_items
(canvas.py lines 402-422)

Each item carries the outcome of its update callbacks: ok, or an
exception with a message. The loops call the callback of every item
inside a try block and log a line for each item whose callback
raised. The result is the list of items whose callback was invoked
together with the list of items for which an error was logged. -/

structure UItem where
  id : ℕ
  pre_update : Except String Unit
  post_update : Except String Unit

/-- True exactly when the callback outcome is a raised exception. -/
def isError (e : Except String Unit) : Bool :=
  match e with
  | Except.error _ => true
  | Except.ok _ => false

namespace Canvas

/-- The loop shared by _pre_update_items and _post_update_items: the
callback of every item is invoked inside the try block, and the
except block logs an error line when the callback raised. -/
def run_update_items (callback : UItem → Except String Unit)
    (items : List UItem) : List ℕ × List ℕ :=
  items.foldl
    (fun acc item =>
      (acc.1 ++ [item.id],
       if isError (callback item) then acc.2 ++ [item.id] else acc.2))
    ([], [])

/-- canvas.py lines 402-412. -/
def pre_update_items (items : List UItem) : List ℕ × List ℕ :=
  run_update_items UItem.pre_update items

/-- canvas.py lines 414-422. -/
def post_update_items (items : List UItem) : List ℕ × List ℕ :=
  run_update_items UItem.post_update items

end Canvas

/- ### Canvas.project (canvas.py lines 688-701) -/

inductive PyError : Type
| attributeError : String → PyError
deriving DecidableEq, Repr

structure CanvasProjection (α : Type) where
  point : α
  item : ℕ
deriving DecidableEq, Repr

inductive ProjResult (α : Type) : Type
| single : CanvasProjection α → ProjResult α
| tuple : List (CanvasProjection α) → ProjResult α
deriving DecidableEq, Repr

namespace Canvas

def project {α : Type} [Inhabited α] (item : ℕ) (points : List α) :
    Except PyError (ProjResult α) :=
  if points.length = 1 then
    Except.ok (ProjResult.single ⟨points.headI, item⟩)
  else if points.length > 1 then
    Except.ok (ProjResult.tuple (points.map (fun p => ⟨p, item⟩)))
  else
    Except.error
      (PyError.attributeError "There should be at least one point specified")

end Canvas

/- ### Canvas.update_now (canvas.py lines 426-489)

Items are identified by natural numbers. The subroutines called by
update_now that do not manipulate the dirty bookkeeping directly are
parameters of the environment:
- ancestors: tree.get_ancestors;
- canvas_index: the _canvas_index attribute used by Canvas.sort;
- matrices_changed: the set returned by update_matrices;
- solve_dirties: the items on which some projected write calls
  request_update(matrix=False) while update_constraints runs the
  solver, as a function of the dirty-matrix items passed in;
- normalized: the set returned by _normalize.
The result records the final dirty sets, the item list handed to
_pre_update_items, the item list handed to _post_update_items and
_normalize, the published dirty-matrix list, and how many times
update_constraints (and hence the solver) ran. -/

structure CanvasState where
  dirty_items : List ℕ
  dirty_matrix_items : List ℕ
deriving DecidableEq, Repr

structure UpdateEnv where
  ancestors : ℕ → List ℕ
  canvas_index : ℕ → ℕ
  matrices_changed : List ℕ → List ℕ
  solve_dirties : List ℕ → List ℕ
  normalized : List ℕ → List ℕ

/-- Set union on lists keeping the left order first, as Python
set.update followed by iteration. -/
def unionl (a b : List ℕ) : List ℕ :=
  a ++ b.filter (fun x => decide (x ∉ a))

/-- Insertion into a list sorted descending by the canvas index. -/
def insertDesc (k : ℕ → ℕ) (x : ℕ) : List ℕ → List ℕ
  | [] => [x]
  | y :: ys => if k y ≤ k x then x :: y :: ys else y :: insertDesc k x ys

/-- Canvas.sort with reverse=True: order by _canvas_index, largest
first (canvas.py lines 287-307). -/
def sortDesc (k : ℕ → ℕ) (l : List ℕ) : List ℕ :=
  l.foldr (insertDesc k) []

structure UpdateResult where
  state : CanvasState
  pre_updated : List ℕ
  post_updated : List ℕ
  view_matrix : List ℕ
  solve_passes : ℕ
deriving Repr

namespace Canvas

/-- canvas.py lines 426-489, straight-line translation. -/
def update_now (env : UpdateEnv) (s : CanvasState) : UpdateResult :=
  -- perform update requests for parents of dirty items (lines 438-440)
  let withAncestors :=
    s.dirty_items.foldl (fun acc it => unionl acc (env.ancestors it))
      s.dirty_items
  -- order the dirty items bottom to top (line 443); line 445 clears
  -- the dirty set
  let dirty_items := sortDesc env.canvas_index withAncestors
  -- _pre_update_items runs on dirty_items (line 452)
  let pre_updated := dirty_items
  -- recalculate matrices and clear the dirty-matrix set (455-456)
  let dirty_matrix_items := env.matrices_changed s.dirty_matrix_items
  -- update_constraints solves once; projected writes re-dirty items
  -- (line 458)
  let newly_dirty := env.solve_dirties dirty_matrix_items
  -- lines 464-468: merge items dirtied by solving and re-sort once
  let dirty_items2 :=
    if newly_dirty ≠ [] then
      sortDesc env.canvas_index (unionl dirty_items newly_dirty)
    else dirty_items
  -- lines 474-477: normalize, then matrices of normalized items
  let normalized_items := env.normalized dirty_items2
  let view_matrix :=
    unionl dirty_matrix_items (env.matrices_changed normalized_items)
  -- line 479: _post_update_items on dirty_items2; both dirty sets
  -- are empty at the final assertion (lines 486-487)
  { state := ⟨[], []⟩
    pre_updated := pre_updated
    post_updated := dirty_items2
    view_matrix := view_matrix
    solve_passes := 1 }

end Canvas

/-! ## Theorems -/

/-! ### Helper lemmas for the weakest-variable list -/

lemma foldl_min_le_init (vs : List Var) (init : ℕ) :
    vs.foldl (fun m x => min m x.strength) init ≤ init := by
  induction vs generalizing init with
  | nil => simp
  | cons v vs ih =>
    simp only [List.foldl_cons]
    exact le_trans (ih (min init v.strength)) (min_le_left _ _)

lemma foldl_min_le_mem (vs : List Var) :
    ∀ (init : ℕ) (x : Var), x ∈ vs →
      vs.foldl (fun m x => min m x.strength) init ≤ x.strength := by
  induction vs with
  | nil => intro _ _ hx; cases hx
  | cons v vs ih =>
    intro init x hx
    simp only [List.foldl_cons]
    rcases List.mem_cons.mp hx with h | h
    · subst h
      exact le_trans (foldl_min_le_init vs _) (min_le_right _ _)
    · exact ih _ x h

lemma foldl_min_attained (vs : List Var) (init : ℕ) :
    vs.foldl (fun m x => min m x.strength) init = init
    ∨ ∃ x ∈ vs, vs.foldl (fun m x => min m x.strength) init = x.strength := by
  induction vs generalizing init with
  | nil => exact Or.inl rfl
  | cons v vs ih =>
    simp only [List.foldl_cons]
    rcases ih (min init v.strength) with h | ⟨x, hx, hfx⟩
    · rcases min_choice init v.strength with hm | hm
      · exact Or.inl (h.trans hm)
      · exact Or.inr ⟨v, List.mem_cons_self _ _, h.trans hm⟩
    · exact Or.inr ⟨x, List.mem_cons_of_mem _ hx, hfx⟩

lemma minStrength_le (vars : List Var) (x : Var) (hx : x ∈ vars) :
    Constraint.minStrength vars ≤ x.strength := by
  cases vars with
  | nil => cases hx
  | cons v vs =>
    unfold Constraint.minStrength
    rcases List.mem_cons.mp hx with h | h
    · subst h; exact foldl_min_le_init vs _
    · exact foldl_min_le_mem vs _ x h

lemma minStrength_attained (v : Var) (vs : List Var) :
    ∃ x ∈ v :: vs, x.strength = Constraint.minStrength (v :: vs) := by
  unfold Constraint.minStrength
  rcases foldl_min_attained vs v.strength with h | ⟨x, hx, hfx⟩
  · exact ⟨v, List.mem_cons_self _ _, h.symm⟩
  · exact ⟨x, List.mem_cons_of_mem _ hx, hfx.symm⟩

lemma mem_create_weakest_list (vars : List Var) (x : Var) :
    x ∈ Constraint.create_weakest_list vars
      ↔ x ∈ vars ∧ x.strength = Constraint.minStrength vars := by
  unfold Constraint.create_weakest_list
  simp [List.mem_filter]

lemma create_weakest_list_ne_nil (vars : List Var) (h : vars ≠ []) :
    Constraint.create_weakest_list vars ≠ [] := by
  cases vars with
  | nil => exact absurd rfl h
  | cons v vs =>
    obtain ⟨x, hx, hsx⟩ := minStrength_attained v vs
    intro hnil
    have : x ∈ Constraint.create_weakest_list (v :: vs) :=
      (mem_create_weakest_list _ _).mpr ⟨hx, hsx⟩
    rw [hnil] at this
    cases this

lemma mark_dirty_rotate (init w : List Var) (v : Var)
    (hne : init ≠ []) (hrot : ∃ n, w = init.rotate n) :
    ∃ n, Constraint.mark_dirty w v = init.rotate n := by
  obtain ⟨n, hn⟩ := hrot
  have hwne : w ≠ [] := by
    subst hn
    intro hcon
    exact hne (by simpa using congrArg List.length hcon)
  unfold Constraint.mark_dirty Constraint.weakest
  cases w with
  | nil => exact absurd rfl hwne
  | cons a rest =>
    by_cases hv : v = (a :: rest).headI
    · have hva : v = a := by simpa using hv
      subst hva
      rw [if_pos hv, List.erase_cons_head]
      refine ⟨n + 1, ?_⟩
      have h1 : (v :: rest).rotate 1 = rest ++ [v] := by
        simpa using List.rotate_cons_succ rest v 0
      rw [← h1, hn, List.rotate_rotate]
    · rw [if_neg hv]
      exact ⟨n, hn⟩

lemma foldl_mark_dirty_rotate (init : List Var) (ops : List Var)
    (hne : init ≠ []) (w : List Var) (hrot : ∃ n, w = init.rotate n) :
    ∃ n, ops.foldl Constraint.mark_dirty w = init.rotate n := by
  induction ops generalizing w with
  | nil => exact hrot
  | cons v ops ih =>
    simp only [List.foldl_cons]
    exact ih _ (mark_dirty_rotate init w v hne hrot)

/-- Claim C5: starting from create_weakest_list, after any sequence
of mark_dirty calls the weakest list still contains exactly the
participant variables sharing the minimum strength (which is a lower
bound of all participant strengths), it stays nonempty so weakest()
returns its front, and mark_dirty applied to the variable currently
at the front moves that variable to the back of the list. -/
theorem weakest_list_invariant (vars ops : List Var) (h : vars ≠ []) :
    (∀ x, x ∈ ops.foldl Constraint.mark_dirty
        (Constraint.create_weakest_list vars)
      ↔ (x ∈ vars ∧ x.strength = Constraint.minStrength vars))
    ∧ (∀ y ∈ vars, Constraint.minStrength vars ≤ y.strength)
    ∧ ops.foldl Constraint.mark_dirty (Constraint.create_weakest_list vars)
        ≠ []
    ∧ (∀ v rest,
        ops.foldl Constraint.mark_dirty (Constraint.create_weakest_list vars)
          = v :: rest →
        Constraint.mark_dirty
          (ops.foldl Constraint.mark_dirty
            (Constraint.create_weakest_list vars)) v
          = rest ++ [v]) := by
  have hne := create_weakest_list_ne_nil vars h
  obtain ⟨n, hn⟩ := foldl_mark_dirty_rotate
    (Constraint.create_weakest_list vars) ops hne
    (Constraint.create_weakest_list vars) ⟨0, (List.rotate_zero _).symm⟩
  refine ⟨fun x => ?_, fun y hy => minStrength_le vars y hy, ?_, ?_⟩
  · rw [hn, List.mem_rotate]
    exact mem_create_weakest_list vars x
  · rw [hn]
    intro hcon
    exact hne (by simpa using congrArg List.length hcon)
  · intro v rest hvr
    rw [hvr]
    unfold Constraint.mark_dirty Constraint.weakest
    rw [if_pos (by simp), List.erase_cons_head]

theorem weakest_list_invariant_witness :
    (∀ x, x ∈ ([⟨0, 1⟩] : List Var).foldl Constraint.mark_dirty
        (Constraint.create_weakest_list [⟨0, 1⟩, ⟨1, 1⟩, ⟨2, 5⟩])
      ↔ (x ∈ ([⟨0, 1⟩, ⟨1, 1⟩, ⟨2, 5⟩] : List Var)
          ∧ x.strength = Constraint.minStrength [⟨0, 1⟩, ⟨1, 1⟩, ⟨2, 5⟩]))
    ∧ (∀ y ∈ ([⟨0, 1⟩, ⟨1, 1⟩, ⟨2, 5⟩] : List Var),
        Constraint.minStrength [⟨0, 1⟩, ⟨1, 1⟩, ⟨2, 5⟩] ≤ y.strength)
    ∧ ([⟨0, 1⟩] : List Var).foldl Constraint.mark_dirty
        (Constraint.create_weakest_list [⟨0, 1⟩, ⟨1, 1⟩, ⟨2, 5⟩]) ≠ []
    ∧ (∀ v rest,
        ([⟨0, 1⟩] : List Var).foldl Constraint.mark_dirty
          (Constraint.create_weakest_list [⟨0, 1⟩, ⟨1, 1⟩, ⟨2, 5⟩])
          = v :: rest →
        Constraint.mark_dirty
          (([⟨0, 1⟩] : List Var).foldl Constraint.mark_dirty
            (Constraint.create_weakest_list [⟨0, 1⟩, ⟨1, 1⟩, ⟨2, 5⟩])) v
          = rest ++ [v]) :=
  weakest_list_invariant [⟨0, 1⟩, ⟨1, 1⟩, ⟨2, 5⟩] [⟨0, 1⟩] (by decide)

/-- Claim C2: LessThanConstraint.solve_for acts only when
smaller.value > bigger.value - delta; when it acts it pushes bigger
up to smaller + delta if var is smaller and pulls smaller down to
bigger - delta if var is bigger, and otherwise it is a no-op; in
every case the resulting values satisfy bigger - smaller >= delta. -/
theorem less_than_solve_for_spec (delta : ℚ) (var : LtVar) (s : LtState) :
    (s.smaller > s.bigger - delta →
      (var = LtVar.smaller →
        LessThanConstraint.solve_for delta var s
          = { s with bigger := s.smaller + delta })
      ∧ (var = LtVar.bigger →
        LessThanConstraint.solve_for delta var s
          = { s with smaller := s.bigger - delta }))
    ∧ (¬ s.smaller > s.bigger - delta →
        LessThanConstraint.solve_for delta var s = s)
    ∧ delta ≤ (LessThanConstraint.solve_for delta var s).bigger
        - (LessThanConstraint.solve_for delta var s).smaller := by
  unfold LessThanConstraint.solve_for
  by_cases hc : s.smaller > s.bigger - delta
  · refine ⟨fun _ => ⟨fun hv => ?_, fun hv => ?_⟩, fun hnc => absurd hc hnc, ?_⟩
    · subst hv; simp [hc]
    · subst hv; simp [hc]
    · cases var <;> simp [hc]
  · refine ⟨fun hcc => absurd hcc hc, fun _ => by simp [hc], ?_⟩
    simp only [if_neg hc]
    linarith [not_lt.mp hc]

theorem less_than_solve_for_spec_witness :
    LessThanConstraint.solve_for 5 LtVar.smaller ⟨10, 8⟩
      = { (⟨10, 8⟩ : LtState) with
          bigger := (⟨10, 8⟩ : LtState).smaller + 5 } :=
  ((less_than_solve_for_spec 5 LtVar.smaller ⟨10, 8⟩).1 (by norm_num)).1 rfl

/-- Claim C3, counterexample: with a = 1 and b = 2, solve_for(a)
moves a itself to the value of b, producing (2, 2); the claim says a
is treated as the value that should not move and predicts (1, 1). -/
theorem equals_solve_for_counterexample :
    EqualsConstraint.solve_for EqVar.a (1, 2) = ((2 : ℚ), (2 : ℚ))
    ∧ EqualsConstraint.solve_for EqVar.a (1, 2) ≠ ((1 : ℚ), (1 : ℚ)) := by
  refine ⟨rfl, ?_⟩
  intro h
  have := congrArg Prod.fst h
  norm_num [EqualsConstraint.solve_for] at this

/-- Claim C3, amended: solve_for(var) treats var as the variable to
move and assigns it the value of the other participant; after
solve_for(a) or solve_for(b) the two participant values are equal. -/
theorem equals_solve_for_spec (s : ℚ × ℚ) (var : EqVar) :
    (EqualsConstraint.solve_for var s).1 = (EqualsConstraint.solve_for var s).2
    ∧ (var = EqVar.a → EqualsConstraint.solve_for var s = (s.2, s.2))
    ∧ (var = EqVar.b → EqualsConstraint.solve_for var s = (s.1, s.1)) := by
  cases var <;> simp [EqualsConstraint.solve_for]

theorem equals_solve_for_spec_witness :
    EqualsConstraint.solve_for EqVar.a ((1 : ℚ), (2 : ℚ))
      = (((1 : ℚ), (2 : ℚ)).2, ((1 : ℚ), (2 : ℚ)).2) :=
  (equals_solve_for_spec (1, 2) EqVar.a).2.1 rfl

/-- Claim C4, counterexample: a constraint built on b1 = 0, b2 = 2,
v = 1 captures t = 1/2; after the band endpoint moves to b2 = 10,
solve_for with participant b1 repositions b1 to 5 and leaves v at 1,
while the claim predicts that every solve_for repositions v to
b1 + t * (b2 - b1) = 5. -/
theorem balance_solve_for_counterexample :
    BalanceConstraint.balance ⟨0, 2, 1⟩ = 1 / 2
    ∧ BalanceConstraint.solve_for (1 / 2) BalVar.b1 ⟨0, 10, 1⟩
        = ⟨5, 10, 1⟩
    ∧ (BalanceConstraint.solve_for (1 / 2) BalVar.b1 ⟨0, 10, 1⟩).v
        ≠ (0 : ℚ) + (1 / 2) * (10 - 0) := by
  refine ⟨?_, ?_, ?_⟩ <;>
    norm_num [BalanceConstraint.balance, BalanceConstraint.solve_for]

/-- Claim C4, amended: the balance ratio t is computed from the
construction-time state as (v - b1) / (b2 - b1), or 0 when the band
has zero width; every later solve_for(v) repositions v to
b1 + t * (b2 - b1) for the current endpoint values and leaves both
endpoints unchanged, while solve_for on either band endpoint (b1 or
b2) repositions that endpoint to b1 + t * (b2 - b1) instead of moving
v, leaving v and the other endpoint unchanged. -/
theorem balance_solve_for_spec (s0 s : BalState) :
    (s0.b2 - s0.b1 ≠ 0 →
      BalanceConstraint.balance s0 = (s0.v - s0.b1) / (s0.b2 - s0.b1))
    ∧ (s0.b2 - s0.b1 = 0 → BalanceConstraint.balance s0 = 0)
    ∧ (BalanceConstraint.solve_for (BalanceConstraint.balance s0) BalVar.v s).v
        = s.b1 + (s.b2 - s.b1) * BalanceConstraint.balance s0
    ∧ (BalanceConstraint.solve_for (BalanceConstraint.balance s0) BalVar.v s).b1
        = s.b1
    ∧ (BalanceConstraint.solve_for (BalanceConstraint.balance s0) BalVar.v s).b2
        = s.b2
    ∧ (BalanceConstraint.solve_for (BalanceConstraint.balance s0) BalVar.b1 s).b1
        = s.b1 + (s.b2 - s.b1) * BalanceConstraint.balance s0
    ∧ (BalanceConstraint.solve_for (BalanceConstraint.balance s0) BalVar.b1 s).b2
        = s.b2
    ∧ (BalanceConstraint.solve_for (BalanceConstraint.balance s0) BalVar.b1 s).v
        = s.v
    ∧ (BalanceConstraint.solve_for (BalanceConstraint.balance s0) BalVar.b2 s).b2
        = s.b1 + (s.b2 - s.b1) * BalanceConstraint.balance s0
    ∧ (BalanceConstraint.solve_for (BalanceConstraint.balance s0) BalVar.b2 s).b1
        = s.b1
    ∧ (BalanceConstraint.solve_for (BalanceConstraint.balance s0) BalVar.b2 s).v
        = s.v := by
  refine ⟨fun h => ?_, fun h => ?_, rfl, rfl, rfl, rfl, rfl, rfl, rfl, rfl, rfl⟩
  · simp [BalanceConstraint.balance, h]
  · simp [BalanceConstraint.balance, h]

theorem balance_solve_for_spec_witness :
    BalanceConstraint.balance ⟨0, 2, 1⟩
      = ((⟨0, 2, 1⟩ : BalState).v - (⟨0, 2, 1⟩ : BalState).b1)
        / ((⟨0, 2, 1⟩ : BalState).b2 - (⟨0, 2, 1⟩ : BalState).b1) :=
  (balance_solve_for_spec ⟨0, 2, 1⟩ ⟨0, 2, 1⟩).1 (by norm_num)

/-- Claim C8, counterexample: for the BalanceConstraint with captured
t = 1/2 on b1 = 0, b2 = 2, a first solve_for on participant b1 moves
b1 to 1, and an immediate second solve_for moves b1 again, to 3/2, so
solve_for on a band endpoint is not idempotent. -/
theorem solve_for_idempotent_counterexample :
    BalanceConstraint.balance ⟨0, 2, 1⟩ = 1 / 2
    ∧ BalanceConstraint.solve_for (1 / 2) BalVar.b1 ⟨0, 2, 1⟩ = ⟨1, 2, 1⟩
    ∧ BalanceConstraint.solve_for (1 / 2) BalVar.b1
        (BalanceConstraint.solve_for (1 / 2) BalVar.b1 ⟨0, 2, 1⟩)
      ≠ BalanceConstraint.solve_for (1 / 2) BalVar.b1 ⟨0, 2, 1⟩ := by
  refine ⟨?_, ?_, ?_⟩ <;>
    norm_num [BalanceConstraint.balance, BalanceConstraint.solve_for]

/-- Claim C8, amended: an immediate second solve_for with the same
argument and no intervening mutation is a no-op for EqualsConstraint
and LessThanConstraint on every participant, and for
BalanceConstraint when solving for v; solving a BalanceConstraint for
a band endpoint twice may move the endpoint again. -/
theorem solve_for_idempotent (varEq : EqVar) (varLt : LtVar) (delta t : ℚ)
    (s : ℚ × ℚ) (s2 : LtState) (s3 : BalState) :
    EqualsConstraint.solve_for varEq (EqualsConstraint.solve_for varEq s)
      = EqualsConstraint.solve_for varEq s
    ∧ LessThanConstraint.solve_for delta varLt
        (LessThanConstraint.solve_for delta varLt s2)
      = LessThanConstraint.solve_for delta varLt s2
    ∧ BalanceConstraint.solve_for t BalVar.v
        (BalanceConstraint.solve_for t BalVar.v s3)
      = BalanceConstraint.solve_for t BalVar.v s3 := by
  refine ⟨?_, ?_, rfl⟩
  · cases varEq <;> rfl
  · unfold LessThanConstraint.solve_for
    by_cases hc : s2.smaller > s2.bigger - delta
    · cases varLt <;> simp [hc]
    · simp [hc]

/-- Claim C6: the secant iteration of EquationConstraint._solve_for
uses tolerance TOL = 1e-7 and iteration cap ITERLIMIT = 1000; for
every function f and starting values the loop terminates within the
fuel fixed by the cap (fuel ITERLIMIT + 2 suffices from n = 0, so
solve_for_arg always yields a result), and when the cap is exceeded
the loop prints a diagnostic and returns the current estimate x1
instead of raising an error. -/
theorem equation_solve_terminates :
    TOL = 1 / 10000000
    ∧ ITERLIMIT = 1000
    ∧ (∀ (f : ℚ → ℚ) (fuel n : ℕ) (x0 x1 fx0 : ℚ) (close_runs : ℕ),
        n ≤ ITERLIMIT + 1 → ITERLIMIT + 2 ≤ fuel + n →
        (EquationConstraint.newton_loop f fuel x0 x1 fx0 close_runs n).isSome
          = true)
    ∧ (∀ (f : ℚ → ℚ) (argval : ℚ),
        (EquationConstraint.solve_for_arg f argval (ITERLIMIT + 2)).isSome
          = true)
    ∧ (∀ (f : ℚ → ℚ) (fuel n : ℕ) (x0 x1 fx0 : ℚ) (close_runs : ℕ),
        ¬ (f x1 = 0 ∨ x1 = x0) →
        ¬ (|f x1 - fx0| < TOL ∧ close_runs = 0) →
        ITERLIMIT < n →
        EquationConstraint.newton_loop f (fuel + 1) x0 x1 fx0 close_runs n
          = some (x1, true)) := by
  have main : ∀ (fuel : ℕ) (f : ℚ → ℚ) (n : ℕ) (x0 x1 fx0 : ℚ)
      (close_runs : ℕ), n ≤ ITERLIMIT + 1 → ITERLIMIT + 2 ≤ fuel + n →
      (EquationConstraint.newton_loop f fuel x0 x1 fx0 close_runs n).isSome
        = true := by
    intro fuel
    induction fuel with
    | zero => intro _ n _ _ _ _ h1 h2; omega
    | succ fuel ih =>
      intro f n x0 x1 fx0 close_runs h1 h2
      rw [EquationConstraint.newton_loop]
      by_cases hb1 : f x1 = 0 ∨ x1 = x0
      · simp [hb1]
      · rw [if_neg hb1]
        by_cases hb2 : |f x1 - fx0| < TOL ∧ close_runs = 0
        · simp [hb2]
        · rw [if_neg hb2]
          by_cases hb3 : n > ITERLIMIT
          · simp [hb3]
          · simp only [if_neg hb3]
            by_cases hb4 : (f x1 - fx0) / (x1 - x0) = 0
            · simp [hb4]
            · simp only [if_neg hb4]
              exact ih f (n + 1) x1 _ (f x1) _ (by omega) (by omega)
  have cap : ∀ (f : ℚ → ℚ) (fuel n : ℕ) (x0 x1 fx0 : ℚ) (close_runs : ℕ),
      ¬ (f x1 = 0 ∨ x1 = x0) →
      ¬ (|f x1 - fx0| < TOL ∧ close_runs = 0) →
      ITERLIMIT < n →
      EquationConstraint.newton_loop f (fuel + 1) x0 x1 fx0 close_runs n
        = some (x1, true) := by
    intro f fuel n x0 x1 fx0 close_runs hb1 hb2 hb3
    rw [EquationConstraint.newton_loop]
    rw [if_neg hb1, if_neg hb2, if_pos hb3]
  refine ⟨rfl, rfl, fun f fuel n x0 x1 fx0 cr h1 h2 =>
    main fuel f n x0 x1 fx0 cr h1 h2, fun f argval => ?_, cap⟩
  unfold EquationConstraint.solve_for_arg
  exact main (ITERLIMIT + 2) f 0 _ _ _ 10 (by omega) (by omega)

theorem equation_solve_terminates_witness :
    (EquationConstraint.newton_loop (fun x => x) (ITERLIMIT + 2)
        2 3 2 10 0).isSome = true
    ∧ EquationConstraint.newton_loop (fun _ => (1 : ℚ)) 1 0 5 3 7 1001
        = some (5, true) :=
  ⟨equation_solve_terminates.2.2.1 (fun x => x) (ITERLIMIT + 2) 0 2 3 2 10
      (by norm_num [ITERLIMIT]) (by norm_num [ITERLIMIT]),
    equation_solve_terminates.2.2.2.2 (fun _ => (1 : ℚ)) 0 1001 0 5 3 7
      (by norm_num) (by norm_num [TOL]) (by norm_num [ITERLIMIT])⟩

lemma translate_translate (m : Matrix2D) (x y : ℚ) :
    (m.translate x 0).translate 0 y = m.translate x y := by
  simp only [Matrix2D.translate]
  refine congrArg₂ (fun a b => { m with x0 := a, y0 := b }) ?_ ?_ <;> ring

lemma translate_zero (m : Matrix2D) : m.translate 0 0 = m := by
  cases m
  simp [Matrix2D.translate]

/-- Claim C7: for an item whose first handle sits at local (x, y),
normalize_item leaves the first handle at the origin, composes the
local matrix with the translation (x, y), shifts every handle by
(-x, -y), and reports the item as dirty exactly when x or y is
nonzero; an item whose first handle is already at the origin, or
which has no handles, is returned unchanged. -/
theorem normalize_item_spec (it : Item) :
    (it.handles = [] → Canvas.normalize_item it = (it, false))
    ∧ (∀ x y rest, it.handles = (x, y) :: rest →
        (Canvas.normalize_item it).1.matrix = it.matrix.translate x y
        ∧ (Canvas.normalize_item it).1.handles
            = it.handles.map (fun h => (h.1 - x, h.2 - y))
        ∧ (Canvas.normalize_item it).1.handles.headI = ((0 : ℚ), (0 : ℚ))
        ∧ ((Canvas.normalize_item it).2 = true ↔ (x ≠ 0 ∨ y ≠ 0))
        ∧ (x = 0 → y = 0 → Canvas.normalize_item it = (it, false))) := by
  obtain ⟨m, hs⟩ := it
  constructor
  · intro h
    simp only at h
    subst h
    rfl
  · intro x y rest h
    simp only at h
    subst h
    by_cases hx : x = 0 <;> by_cases hy : y = 0
    · subst hx; subst hy
      refine ⟨?_, ?_, ?_, by simp [Canvas.normalize_item], fun _ _ => ?_⟩ <;>
        simp [Canvas.normalize_item, translate_zero]
    · subst hx
      refine ⟨?_, ?_, ?_, by simp [Canvas.normalize_item, hy],
        fun _ hc => absurd hc hy⟩ <;>
        simp [Canvas.normalize_item, hy, Matrix2D.translate]
    · subst hy
      refine ⟨?_, ?_, ?_, by simp [Canvas.normalize_item, hx],
        fun hc _ => absurd hc hx⟩ <;>
        simp [Canvas.normalize_item, hx, Matrix2D.translate]
    · refine ⟨?_, ?_, ?_, by simp [Canvas.normalize_item, hx, hy],
        fun hc => absurd hc hx⟩
      · simp [Canvas.normalize_item, hx, hy, translate_translate]
      · simp [Canvas.normalize_item, hx, hy, List.map_map, Function.comp]
      · simp [Canvas.normalize_item, hx, hy]

theorem normalize_item_spec_witness :
    (Canvas.normalize_item
        ⟨⟨1, 0, 0, 1, 0, 0⟩, [(1, 0), (10, 0)]⟩).1.matrix
      = (⟨1, 0, 0, 1, 0, 0⟩ : Matrix2D).translate 1 0
    ∧ (Canvas.normalize_item
        ⟨⟨1, 0, 0, 1, 0, 0⟩, [(1, 0), (10, 0)]⟩).1.handles
      = ([((1 : ℚ), (0 : ℚ)), (10, 0)]).map (fun h => (h.1 - 1, h.2 - 0))
    ∧ (Canvas.normalize_item
        ⟨⟨1, 0, 0, 1, 0, 0⟩, [(1, 0), (10, 0)]⟩).1.handles.headI
      = ((0 : ℚ), (0 : ℚ))
    ∧ ((Canvas.normalize_item
        ⟨⟨1, 0, 0, 1, 0, 0⟩, [(1, 0), (10, 0)]⟩).2 = true
      ↔ ((1 : ℚ) ≠ 0 ∨ (0 : ℚ) ≠ 0))
    ∧ ((1 : ℚ) = 0 → (0 : ℚ) = 0 →
        Canvas.normalize_item ⟨⟨1, 0, 0, 1, 0, 0⟩, [(1, 0), (10, 0)]⟩
          = (⟨⟨1, 0, 0, 1, 0, 0⟩, [(1, 0), (10, 0)]⟩, false)) :=
  (normalize_item_spec ⟨⟨1, 0, 0, 1, 0, 0⟩, [(1, 0), (10, 0)]⟩).2
    1 0 [(10, 0)] rfl

lemma run_update_items_foldl (cb : UItem → Except String Unit)
    (items : List UItem) :
    ∀ acc : List ℕ × List ℕ,
      items.foldl
        (fun acc item =>
          (acc.1 ++ [item.id],
           if isError (cb item) then acc.2 ++ [item.id] else acc.2))
        acc
      = (acc.1 ++ items.map UItem.id,
         acc.2 ++ (items.filter (fun i => isError (cb i))).map UItem.id) := by
  induction items with
  | nil => intro acc; simp
  | cons item items ih =>
    intro acc
    simp only [List.foldl_cons]
    by_cases hb : isError (cb item)
    · simp only [hb, if_pos]
      rw [ih (acc.1 ++ [item.id], acc.2 ++ [item.id])]
      simp [List.filter_cons, hb]
    · simp only [hb, if_neg, Bool.false_eq_true, if_false]
      rw [ih (acc.1 ++ [item.id], acc.2)]
      simp [List.filter_cons, hb]

lemma run_update_items_eq (cb : UItem → Except String Unit)
    (items : List UItem) :
    Canvas.run_update_items cb items
      = (items.map UItem.id,
         (items.filter (fun i => isError (cb i))).map UItem.id) := by
  unfold Canvas.run_update_items
  rw [run_update_items_foldl cb items ([], [])]
  simp

/-- Claim C9: for every list of dirty items, _pre_update_items and
_post_update_items invoke the callback of every item in the list in
order, even when callbacks of earlier items raise; an exception is
caught and logged for the raising item alone (the error log lists
exactly the items whose callback raised), and the loop always
returns instead of propagating the exception. -/
theorem update_items_isolation (items : List UItem) :
    (Canvas.pre_update_items items).1 = items.map UItem.id
    ∧ (Canvas.pre_update_items items).2
        = (items.filter (fun i => isError i.pre_update)).map UItem.id
    ∧ (Canvas.post_update_items items).1 = items.map UItem.id
    ∧ (Canvas.post_update_items items).2
        = (items.filter (fun i => isError i.post_update)).map UItem.id := by
  unfold Canvas.pre_update_items Canvas.post_update_items
  rw [run_update_items_eq, run_update_items_eq]
  exact ⟨rfl, rfl, rfl, rfl⟩

/-- Claim C10: Canvas.project raises AttributeError when called with
no points, returns a single CanvasProjection over the point when
called with exactly one, and returns the tuple of per-point
CanvasProjections in input order when called with two or more. -/
theorem project_spec {α : Type} [Inhabited α] (item : ℕ) (points : List α) :
    (points = [] →
      Canvas.project item points
        = Except.error (PyError.attributeError
            "There should be at least one point specified"))
    ∧ (∀ p, points = [p] →
        Canvas.project item points
          = Except.ok (ProjResult.single ⟨p, item⟩))
    ∧ (2 ≤ points.length →
        Canvas.project item points
          = Except.ok (ProjResult.tuple
              (points.map (fun q => ⟨q, item⟩)))) := by
  refine ⟨fun h => ?_, fun p h => ?_, fun h => ?_⟩
  · subst h; rfl
  · subst h; rfl
  · unfold Canvas.project
    rw [if_neg (by omega), if_pos (by omega)]

theorem project_spec_witness :
    Canvas.project 0 ([4, 5] : List ℕ)
      = Except.ok (ProjResult.tuple
          (([4, 5] : List ℕ).map (fun q => ⟨q, 0⟩))) :=
  (project_spec 0 [4, 5]).2.2 (by decide)

lemma mem_unionl (x : ℕ) (a b : List ℕ) :
    x ∈ unionl a b ↔ (x ∈ a ∨ x ∈ b) := by
  unfold unionl
  simp only [List.mem_append, List.mem_filter, decide_eq_true_eq]
  by_cases hx : x ∈ a
  · simp [hx]
  · simp [hx]

lemma mem_insertDesc (k : ℕ → ℕ) (x y : ℕ) (l : List ℕ) :
    x ∈ insertDesc k y l ↔ (x = y ∨ x ∈ l) := by
  induction l with
  | nil => simp [insertDesc]
  | cons z zs ih =>
    unfold insertDesc
    by_cases hle : k z ≤ k y
    · simp [hle]
    · simp only [if_neg hle, List.mem_cons, ih]
      tauto

lemma mem_sortDesc (k : ℕ → ℕ) (x : ℕ) (l : List ℕ) :
    x ∈ sortDesc k l ↔ x ∈ l := by
  induction l with
  | nil => simp [sortDesc]
  | cons z zs ih =>
    unfold sortDesc at ih ⊢
    simp only [List.foldr_cons, mem_insertDesc, ih, List.mem_cons]

/-- Claim C1, counterexample: in an environment where constraint
solving dirties the fresh item 7, update_now runs the
constraint-solving step exactly once and never hands item 7 to the
pre-update or matrix steps; it only merges 7 into the list used for
normalization and post-update. The claim predicts that the
pre-update/matrix-recomputation/constraint-solving steps are
repeated for the newly dirtied item. -/
theorem update_now_no_repeat_counterexample :
    (fun _ => [7] : List ℕ → List ℕ)
        ((fun l => l : List ℕ → List ℕ) [1]) ≠ []
    ∧ (Canvas.update_now
        ⟨fun _ => [], fun i => i, fun l => l, fun _ => [7], fun _ => []⟩
        ⟨[1], [1]⟩).solve_passes = 1
    ∧ (Canvas.update_now
        ⟨fun _ => [], fun i => i, fun l => l, fun _ => [7], fun _ => []⟩
        ⟨[1], [1]⟩).pre_updated = [1]
    ∧ (7 : ℕ) ∉ (Canvas.update_now
        ⟨fun _ => [], fun i => i, fun l => l, fun _ => [7], fun _ => []⟩
        ⟨[1], [1]⟩).pre_updated
    ∧ (7 : ℕ) ∈ (Canvas.update_now
        ⟨fun _ => [], fun i => i, fun l => l, fun _ => [7], fun _ => []⟩
        ⟨[1], [1]⟩).post_updated := by
  refine ⟨by decide, rfl, rfl, by decide, by decide⟩

/-- Claim C1, amended: when constraint solving dirties additional
items, update_now merges them into the processed item list and
re-sorts it once for normalization and post-update; the
pre-update/matrix-recomputation/constraint-solving steps run exactly
once per call and are not repeated, and when update_now returns both
the dirty-item set and the dirty-matrix-item set of the canvas are
empty. -/
theorem update_now_spec (env : UpdateEnv) (s : CanvasState) :
    (Canvas.update_now env s).state.dirty_items = []
    ∧ (Canvas.update_now env s).state.dirty_matrix_items = []
    ∧ (Canvas.update_now env s).solve_passes = 1
    ∧ (∀ x ∈ env.solve_dirties (env.matrices_changed s.dirty_matrix_items),
        x ∈ (Canvas.update_now env s).post_updated) := by
  refine ⟨rfl, rfl, rfl, fun x hx => ?_⟩
  unfold Canvas.update_now
  simp only
  rw [if_pos (List.ne_nil_of_mem hx)]
  rw [mem_sortDesc, mem_unionl]
  exact Or.inr hx

theorem update_now_spec_witness :
    (7 : ℕ) ∈ (Canvas.update_now
        ⟨fun _ => [], fun i => i, fun l => l, fun _ => [7], fun _ => []⟩
        ⟨[1], [3]⟩).post_updated :=
  (update_now_spec
      ⟨fun _ => [], fun i => i, fun l => l, fun _ => [7], fun _ => []⟩
      ⟨[1], [3]⟩).2.2.2 7 (by decide)

end Gaphas
